import Mathlib

set_option maxRecDepth 10000

/-!
# Verification of the golden-ratio string builder

Shallow embedding of `string-builder.c` (the golden-ratio resize variant):
the C `struct string_builder` together with its operations
`string_builder_create`, `string_builder_compute_next_best_sequence_value_index`,
`string_builder_ensure_capacity`, `string_builder_compute_new_size`,
`string_builder_append_one`, `string_builder_append_all`,
`string_builder_remove`, `string_builder_clear` and `string_builder_result`.

Modelling conventions:
* `size_t` values are `Nat`s; every arithmetic operation that can wrap in C
  is performed modulo `W = 2^64` (`subW` is C unsigned subtraction).
* The backing allocation `built_chain` is a `List Char` whose length is the
  size of the current `malloc`/`realloc` block; bytes malloc leaves
  indeterminate are modelled by the fixed filler `mallocChar` (no claim
  depends on their values).
* `malloc`/`realloc` can fail in C; operations that reallocate take an
  `allocOk : Bool` oracle deciding whether that reallocation succeeds.
* The unbounded C `while` loops are written with an explicit iteration
  budget. For the two table loops the budget is an exact bound (the binary
  search visits at most `SEQUENCE_SIZE` intervals, the cursor walk at most
  `SEQUENCE_SIZE` entries), so the embedding is exact.  The fallback
  recurrence loop returns `none` ("the model ran out of budget") via
  `Option` when its budget is exhausted; theorems only ever use runs where
  it finished, which covers every request below `2^62`.
-/

/-- The modulus `2^64` of C `size_t` arithmetic on the reference platform. -/
def W : Nat := 2 ^ 64

/-- C unsigned subtraction `a - b` on `size_t`: subtraction modulo `2^64`. -/
def subW (a b : Nat) : Nat := (a % W + (W - b % W)) % W

/-- The filler standing for the indeterminate bytes of a fresh allocation. -/
def mallocChar : Char := '#'

/-- The C string terminator `'\0'`. -/
def nulChar : Char := Char.ofNat 0

/-- C constant `static const size_t DEFAULT_INITIAL_CAPACITY = 16;`. -/
def DEFAULT_INITIAL_CAPACITY : Nat := 16

/-- The precomputed A006999 sequence table from `string-builder.c`
(`new_size = floor(old_size * 1.5) + 1`). -/
def SEQUENCE : List Nat :=
  [0, 1, 2, 4, 7, 11, 17, 26, 40, 61, 92, 139, 209, 314, 472, 709, 1064,
   1597, 2396, 3595, 5393, 8090, 12136, 18205, 27308, 40963, 61445, 92168,
   138253, 207380, 311071, 466607, 699911, 1049867, 1574801, 2362202,
   3543304, 5314957, 7972436, 11958655, 17937983, 26906975, 40360463,
   60540695, 90811043, 136216565, 204324848, 306487273, 459730910,
   689596366, 1034394550]

/-- C constant `SEQUENCE_SIZE = sizeof(SEQUENCE) / sizeof(size_t)` (= 51). -/
def SEQUENCE_SIZE : Nat := SEQUENCE.length

/-- C constant `static const size_t SEQUENCE_INIT_NEXT_INDEX = 7;`. -/
def SEQUENCE_INIT_NEXT_INDEX : Nat := 7

/-- The C `struct string_builder`. -/
structure StringBuilder where
  built_chain : List Char
  used_capacity : Nat
  max_capacity : Nat
  current_sequence_index : Nat
  deriving DecidableEq, Repr

/-- The `while (left <= right)` loop of
`string_builder_compute_next_best_sequence_value_index`.  `left`, `right`
and `middle` are C `int`s, modelled as `Int`.  `gas` bounds the number of
iterations; each iteration shrinks `right - left + 1` by at least one, so
passing `gas = SEQUENCE_SIZE` at the top level makes the embedding exact. -/
def string_builder_sequence_search (capacity : Nat) :
    Nat → Int → Int → Int → Int
  | 0, _, _, middle => middle
  | Nat.succ gas, left, right, middle =>
    if left ≤ right then
      let m : Int := left + (right - left) / 2
      if SEQUENCE.getD m.toNat 0 ≤ capacity then
        string_builder_sequence_search capacity gas (m + 1) right m
      else
        string_builder_sequence_search capacity gas left (m - 1) m
    else middle

/-- Function `string_builder_compute_next_best_sequence_value_index`: returns the
special-cased index `7` for the default capacity, otherwise the final
`middle` of the binary search over `SEQUENCE`. -/
def string_builder_compute_next_best_sequence_value_index (capacity : Nat) : Int :=
  if capacity = DEFAULT_INITIAL_CAPACITY then (SEQUENCE_INIT_NEXT_INDEX : Int)
  else
    string_builder_sequence_search capacity SEQUENCE_SIZE 0
      ((SEQUENCE_SIZE : Int) - 1) 0

/-- Function `string_builder_create` (successful-allocation run): fresh storage of
`initial_capacity` indeterminate bytes, `used_capacity = 0`,
`max_capacity = initial_capacity`, cursor from the binary search. -/
def string_builder_create (initial_capacity : Nat) : StringBuilder :=
  { built_chain := List.replicate initial_capacity mallocChar
    used_capacity := 0
    max_capacity := initial_capacity
    current_sequence_index :=
      (string_builder_compute_next_best_sequence_value_index initial_capacity).toNat }

/-- Function `string_builder_create_default()` = `string_builder_create(16)`. -/
def string_builder_create_default : StringBuilder :=
  string_builder_create DEFAULT_INITIAL_CAPACITY

/-- The cursor-advancing `while` loop at the top of
`string_builder_compute_new_size`:
`while (idx < SEQUENCE_SIZE && SEQUENCE[idx] - 1 < used + chars) idx++`.
`need` is the (already wrapped) value of `used_capacity + chars_amount`.
`gas = SEQUENCE_SIZE` at the call site is an exact bound: the loop body
requires `idx < SEQUENCE_SIZE` and increments `idx`. -/
def string_builder_advance_cursor : Nat → Nat → Nat → Nat
  | 0, idx, _ => idx
  | Nat.succ gas, idx, need =>
    if idx < SEQUENCE_SIZE ∧ subW (SEQUENCE.getD idx 0) 1 < need then
      string_builder_advance_cursor gas (idx + 1) need
    else idx

/-- One step of the fallback recurrence in `string_builder_compute_new_size`:
`new_size = ((new_size + (new_size << 1)) >> 1) + 1` in `size_t` arithmetic. -/
def string_builder_growth_step (v : Nat) : Nat :=
  ((v % W + (v * 2) % W) % W / 2 + 1) % W

/-- The fallback `while (new_size - 1 < used + chars)` loop of
`string_builder_compute_new_size`, with an explicit iteration budget
(`none` = budget exhausted before the loop finished). -/
def string_builder_fallback_loop : Nat → Nat → Nat → Option Nat
  | 0, _, _ => none
  | Nat.succ fuel, need, v =>
    if subW v 1 < need then
      string_builder_fallback_loop fuel need (string_builder_growth_step v)
    else some v

/-- Iteration budget passed to the fallback loop.  Starting from
`SEQUENCE[50] ≈ 10^9` and multiplying by `3/2` each step, far fewer than
200 steps reach any request below `2^64`, so the budget is never the
binding constraint in the theorems below. -/
def fallbackFuel : Nat := 200

/-- Function `string_builder_compute_new_size`: advances the cursor through the
cached table and returns `(new_size, new cursor)`; past the table it runs
the recurrence from `SEQUENCE[SEQUENCE_SIZE - 1]`.  Mirrors the C function
including its mutation of `current_sequence_index` (returned as the second
component; the caller stores it). -/
def string_builder_compute_new_size (sb : StringBuilder) (chars_amount : Nat) :
    Option (Nat × Nat) :=
  let need := (sb.used_capacity + chars_amount) % W
  let idx := string_builder_advance_cursor SEQUENCE_SIZE
    sb.current_sequence_index need
  if idx < SEQUENCE_SIZE then
    some (SEQUENCE.getD idx 0, idx + 1)
  else
    match string_builder_fallback_loop fallbackFuel need
        (SEQUENCE.getD (SEQUENCE_SIZE - 1) 0) with
    | some v => some (v, idx)
    | none => none

/-- A `realloc` of a character block to `n` bytes: the common prefix is
preserved, bytes beyond the old block are indeterminate. -/
def reallocList (chain : List Char) (n : Nat) : List Char :=
  chain.take n ++ List.replicate (n - chain.length) mallocChar

/-- Function `string_builder_ensure_capacity`.  Fails on `chars_amount < 1`;
otherwise either the fast path
`max_capacity - 1 >= used_capacity + chars_amount` (C unsigned compare)
succeeds without resizing, or the chain is reallocated to the size chosen
by `string_builder_compute_new_size`.  On a failed `realloc`
(`allocOk = false`) the function returns `false`; note the cursor update
made by `string_builder_compute_new_size` has already happened. -/
def string_builder_ensure_capacity (sb : StringBuilder) (chars_amount : Nat)
    (allocOk : Bool) : Option (Bool × StringBuilder) :=
  if chars_amount < 1 then some (false, sb)
  else if (sb.used_capacity + chars_amount) % W ≤ subW sb.max_capacity 1 then
    some (true, sb)
  else
    match string_builder_compute_new_size sb chars_amount with
    | none => none
    | some (new_size, idx) =>
      if allocOk then
        some (true,
          { sb with
            built_chain := reallocList sb.built_chain new_size
            max_capacity := new_size
            current_sequence_index := idx })
      else
        some (false, { sb with current_sequence_index := idx })

/-- The bulk write `memcpy(dst + i, src, src.length)` where `src` is a separate block
(the `append_all` bulk copy): writes the characters of `src` at successive
positions from `i`. -/
def listWriteAt (dst : List Char) (i : Nat) (src : List Char) : List Char :=
  match src with
  | [] => dst
  | c :: cs => listWriteAt (dst.set i c) (i + 1) cs

/-- Function `string_builder_append_one` (non-NULL builder): ensure capacity for
one character, write it at offset `used_capacity`, increment the length. -/
def string_builder_append_one (sb : StringBuilder) (character : Char)
    (allocOk : Bool) : Option (Bool × StringBuilder) :=
  match string_builder_ensure_capacity sb 1 allocOk with
  | none => none
  | some (false, sb') => some (false, sb')
  | some (true, sb') =>
    some (true,
      { sb' with
        built_chain := sb'.built_chain.set sb'.used_capacity character
        used_capacity := (sb'.used_capacity + 1) % W })

/-- Function `string_builder_append_all` (non-NULL builder and chain): measures the
chain with `strlen`, ensures capacity for that many characters in one
call, bulk-copies, and advances the length.  The argument list is the C
string's characters (no terminator), so its `length` is the `strlen`. -/
def string_builder_append_all (sb : StringBuilder) (chain : List Char)
    (allocOk : Bool) : Option (Bool × StringBuilder) :=
  let chain_size := chain.length
  match string_builder_ensure_capacity sb chain_size allocOk with
  | none => none
  | some (false, sb') => some (false, sb')
  | some (true, sb') =>
    some (true,
      { sb' with
        built_chain := listWriteAt sb'.built_chain sb'.used_capacity chain
        used_capacity := (sb'.used_capacity + chain_size) % W })

/-- The `memcpy(start, next, amount)` of `string_builder_remove`, whose
regions may overlap inside one block: modelled as the forward byte-by-byte
copy `chain[dest + k] = chain[src + k]` for `k = 0, ..., amount - 1` (the
overlap-safe direction for `dest ≤ src`, which holds in every run the
theorems below consider). -/
def memcpyFwd (chain : List Char) (dest src : Nat) : Nat → List Char
  | 0 => chain
  | Nat.succ n =>
    memcpyFwd (chain.set dest (chain.getD src mallocChar)) (dest + 1) (src + 1) n

/-- Function `string_builder_remove` (non-NULL builder).  The two `< 0` checks on
the `size_t` parameters in the C source are vacuous and elided.  Note the
source checks `used_capacity == 0` and `stop_index >= used_capacity` but
never `start_index <= stop_index`. -/
def string_builder_remove (sb : StringBuilder) (start_index stop_index : Nat) :
    Bool × StringBuilder :=
  if sb.used_capacity = 0 then (false, sb)
  else if stop_index ≥ sb.used_capacity then (false, sb)
  else
    let amount := subW sb.used_capacity ((stop_index + 1) % W)
    let chain := memcpyFwd sb.built_chain start_index ((stop_index + 1) % W) amount
    (true,
      { sb with
        built_chain := chain
        used_capacity :=
          subW sb.used_capacity ((subW stop_index start_index + 1) % W) })

/-- Function `string_builder_clear` (non-NULL builder): a fresh 1-byte chain holding
only the terminator, `used_capacity = 0`, `max_capacity = 1`, cursor `2`;
on a failed `malloc` the builder is untouched. -/
def string_builder_clear (sb : StringBuilder) (allocOk : Bool) :
    Bool × StringBuilder :=
  if allocOk then
    (true,
      { built_chain := [nulChar]
        used_capacity := 0
        max_capacity := 1
        current_sequence_index := 2 })
  else (false, sb)

/-- Function `string_builder_result` (non-NULL builder): if
`used_capacity != max_capacity - 1` (C unsigned compare) the chain is
reallocated to `used_capacity + 1` bytes — note the C source does not
update `max_capacity` here — then the terminator is written at offset
`used_capacity` and the chain is returned. -/
def string_builder_result (sb : StringBuilder) (allocOk : Bool) :
    Option (List Char) × StringBuilder :=
  if sb.used_capacity ≠ subW sb.max_capacity 1 then
    if allocOk then
      let chain1 := reallocList sb.built_chain ((sb.used_capacity + 1) % W)
      let chain2 := chain1.set sb.used_capacity nulChar
      (some chain2, { sb with built_chain := chain2 })
    else (none, sb)
  else
    let chain2 := sb.built_chain.set sb.used_capacity nulChar
    (some chain2, { sb with built_chain := chain2 })

/-! ## Basic facts about the embedding -/

theorem seq_length_eq : SEQUENCE.length = 51 := rfl

theorem W_pos : 0 < W := by decide

theorem subW_eq_sub {a b : Nat} (hba : b ≤ a) (ha : a < W) : subW a b = a - b := by
  unfold subW
  have hb : b < W := lt_of_le_of_lt hba ha
  rw [Nat.mod_eq_of_lt ha, Nat.mod_eq_of_lt hb]
  have : a + (W - b) = W + (a - b) := by omega
  rw [this, Nat.add_mod_left, Nat.mod_eq_of_lt (by omega)]

theorem subW_lt_W (a b : Nat) : subW a b < W := by
  unfold subW
  exact Nat.mod_lt _ W_pos

/-! ## C10: append_all with an empty chain -/

/-- C10 — confirmed.  For every builder state and either allocation
outcome, `string_builder_append_all` on the empty chain fails (its
`string_builder_ensure_capacity(0)` call rejects `chars_amount < 1`) and
returns the builder completely unchanged. -/
theorem c10_append_all_empty_fails (sb : StringBuilder) (allocOk : Bool) :
    string_builder_append_all sb [] allocOk = some (false, sb) := by
  simp [string_builder_append_all, string_builder_ensure_capacity]

/-! ## C1: the concrete create(1) / append_all(15 chars) scenario -/

/-- C1 — confirmed.  Starting from `string_builder_create(1)`, a single
`string_builder_append_all` of the 15-character chain `"AAAAAAAAAAAAAAA"`
succeeds and leaves `used_capacity = 15` and `max_capacity = 17` (the
growth scan walked the cached table to entry `17`). -/
theorem c1_create1_append15 :
    string_builder_append_all (string_builder_create 1)
        (List.replicate 15 'A') true
      = some (true,
          { built_chain := List.replicate 15 'A' ++ List.replicate 2 mallocChar
            used_capacity := 15
            max_capacity := 17
            current_sequence_index := 7 }) ∧
    (List.replicate 15 'A').length = 15 := by
  constructor
  · decide
  · decide

/-! ## C2: growth can undershoot on a zero-capacity builder -/

/-- C2 — the failing input.  On the builder `string_builder_create(0)`
(`length = 0`, `capacity = 0`), `string_builder_ensure_capacity(1)`
reports success without growing at all — the C fast-path comparison
`max_capacity - 1 >= used_capacity + chars_amount` underflows to
`SIZE_MAX` — so the resulting capacity `0` is below
`length + 1 + 1 = 2` required by the claim. -/
theorem c2_zero_capacity_undershoots :
    string_builder_ensure_capacity (string_builder_create 0) 1 true
        = some (true, string_builder_create 0) ∧
    (string_builder_create 0).max_capacity = 0 ∧
    (string_builder_create 0).max_capacity <
      (string_builder_create 0).used_capacity + 1 + 1 := by
  refine ⟨by decide, by decide, by decide⟩

/-! ## C3: failed growth leaves length/capacity/storage — but not the cursor -/

/-- C3 — counterexample to the claim as stated.  On `string_builder_create(1)`
a growth attempt whose reallocation fails returns failure, but the growth
cursor has moved from `1` to `3` (`string_builder_compute_new_size`
advances and post-increments it before the `realloc`), so the builder is
not "exactly what it was before the call". -/
theorem c3_cursor_moves_on_failed_realloc :
    string_builder_ensure_capacity (string_builder_create 1) 1 false
        = some (false,
            { built_chain := [mallocChar]
              used_capacity := 0
              max_capacity := 1
              current_sequence_index := 3 }) ∧
    (string_builder_create 1).current_sequence_index = 1 ∧
    string_builder_ensure_capacity (string_builder_create 1) 1 false
      ≠ some (false, string_builder_create 1) := by
  refine ⟨by decide, by decide, by decide⟩

/-- C3 — amended.  When `string_builder_ensure_capacity` fails while its
reallocation cannot be satisfied, the storage, the length and the capacity
are exactly what they were before the call; only the growth cursor
(`current_sequence_index`) may have advanced. -/
theorem c3_failed_growth_preserves_state (sb : StringBuilder) (n : Nat)
    (sb' : StringBuilder)
    (h : string_builder_ensure_capacity sb n false = some (false, sb')) :
    sb'.built_chain = sb.built_chain ∧
    sb'.used_capacity = sb.used_capacity ∧
    sb'.max_capacity = sb.max_capacity := by
  unfold string_builder_ensure_capacity at h
  split at h
  · simp only [Option.some.injEq, Prod.mk.injEq] at h
    obtain ⟨-, rfl⟩ := h
    exact ⟨rfl, rfl, rfl⟩
  · split at h
    · simp at h
    · split at h
      · simp at h
      · rw [if_neg Bool.false_ne_true] at h
        simp only [Option.some.injEq, Prod.mk.injEq] at h
        obtain ⟨-, rfl⟩ := h
        exact ⟨rfl, rfl, rfl⟩

/-- Witness for `c3_failed_growth_preserves_state` at the concrete input
`string_builder_create 1`, request `1`. -/
theorem c3_failed_growth_preserves_state_witness :
    ({ built_chain := [mallocChar], used_capacity := 0, max_capacity := 1,
       current_sequence_index := 3 : StringBuilder }).built_chain
        = (string_builder_create 1).built_chain ∧
    ({ built_chain := [mallocChar], used_capacity := 0, max_capacity := 1,
       current_sequence_index := 3 : StringBuilder }).used_capacity
        = (string_builder_create 1).used_capacity ∧
    ({ built_chain := [mallocChar], used_capacity := 0, max_capacity := 1,
       current_sequence_index := 3 : StringBuilder }).max_capacity
        = (string_builder_create 1).max_capacity :=
  c3_failed_growth_preserves_state (string_builder_create 1) 1 _ (by decide)

/-! ## C4: remove's bounds validation -/

/-- C4 — counterexample to the claim as stated.  On the reachable builder
holding `"AB"` (`length = 2`), the call `string_builder_remove(1, 0)` has
`start_index > stop_index`, which the claim says must fail with
`IndexOutOfRange`; the C code performs no such check and reports
success. -/
theorem c4_remove_accepts_reversed_range :
    string_builder_append_all (string_builder_create 1) ['A', 'B'] true
      = some (true,
          { built_chain := ['A', 'B', mallocChar, mallocChar]
            used_capacity := 2
            max_capacity := 4
            current_sequence_index := 4 }) ∧
    (string_builder_remove
        { built_chain := ['A', 'B', mallocChar, mallocChar]
          used_capacity := 2
          max_capacity := 4
          current_sequence_index := 4 } 1 0).1 = true := by
  refine ⟨by decide, by decide⟩

/-- C4 — amended.  `string_builder_remove` validates only emptiness and the
upper bound against the logical length: it fails (leaving the builder
unchanged) when `length = 0` — the `EmptyBuffer` diagnostic — or when
`stop_index ≥ length` — the `IndexOutOfRange` diagnostic.  It performs no
`start_index ≤ stop_index` check, so a call with a reversed range is not
rejected. -/
theorem c4_remove_validation (sb : StringBuilder) (start_index stop_index : Nat)
    (h : sb.used_capacity = 0 ∨ sb.used_capacity ≤ stop_index) :
    string_builder_remove sb start_index stop_index = (false, sb) := by
  unfold string_builder_remove
  rcases h with h | h
  · rw [if_pos h]
  · rcases Nat.eq_zero_or_pos sb.used_capacity with h0 | h0
    · rw [if_pos h0]
    · rw [if_neg (by omega), if_pos h]

/-- Witness for `c4_remove_validation`: removing from the fresh default
builder (`length = 0`) fails and leaves it unchanged (the spec's
`EmptyBuffer` scenario). -/
theorem c4_remove_validation_witness :
    string_builder_remove string_builder_create_default 0 0
      = (false, string_builder_create_default) :=
  c4_remove_validation string_builder_create_default 0 0 (Or.inl (by decide))

/-! ## C8: result() shrinks the storage but not the recorded capacity -/

/-- C8 — the failing input.  On `string_builder_create(2)`
(`capacity = 2 > length + 1 = 1`), `string_builder_result` succeeds and
shrinks the storage to `length + 1 = 1` slot, but the C code never updates
`max_capacity`, which stays `2`: the storage-size-equals-capacity
invariant does not hold when `result()` returns, and the recorded capacity
is not `length + 1`. -/
theorem c8_result_leaves_capacity_stale :
    ((string_builder_result (string_builder_create 2) true).1).isSome = true ∧
    (string_builder_result (string_builder_create 2) true).2.built_chain.length
        = 1 ∧
    (string_builder_result (string_builder_create 2) true).2.max_capacity = 2 ∧
    (string_builder_result (string_builder_create 2) true).2.max_capacity ≠
      (string_builder_result (string_builder_create 2) true).2.used_capacity
        + 1 := by
  refine ⟨by decide, by decide, by decide, by decide⟩

/-! ## Characterising the remove copy loop -/

theorem getD_set_eq (l : List Char) (i j : Nat) (a d : Char) :
    (l.set i a).getD j d = if i = j ∧ i < l.length then a else l.getD j d := by
  rw [List.getD_eq_getElem?_getD, List.getD_eq_getElem?_getD, List.getElem?_set]
  by_cases h1 : i = j
  · subst h1
    by_cases h2 : i < l.length
    · rw [if_pos rfl, if_pos h2, if_pos ⟨rfl, h2⟩]
      rfl
    · rw [if_pos rfl, if_neg h2, if_neg (by tauto)]
      rw [List.getElem?_eq_none (by omega)]
  · rw [if_neg h1, if_neg (by tauto)]

theorem length_memcpyFwd : ∀ (n : Nat) (chain : List Char) (d s : Nat),
    (memcpyFwd chain d s n).length = chain.length := by
  intro n
  induction n with
  | zero => intro chain d s; rfl
  | succ n ih =>
    intro chain d s
    rw [memcpyFwd, ih, List.length_set]

theorem getD_memcpyFwd : ∀ (n : Nat) (chain : List Char) (d s i : Nat),
    d ≤ s → s + n ≤ chain.length →
    (memcpyFwd chain d s n).getD i mallocChar =
      if d ≤ i ∧ i < d + n then chain.getD (s + (i - d)) mallocChar
      else chain.getD i mallocChar := by
  intro n
  induction n with
  | zero =>
    intro chain d s i _ _
    rw [memcpyFwd, if_neg (by omega)]
  | succ n ih =>
    intro chain d s i hds hlen
    rw [memcpyFwd, ih _ (d + 1) (s + 1) i (by omega) (by rw [List.length_set]; omega)]
    by_cases h1 : d ≤ i ∧ i < d + (n + 1)
    · rw [if_pos h1]
      by_cases h2 : i = d
      · subst h2
        rw [if_neg (by omega), getD_set_eq, if_pos ⟨rfl, by omega⟩]
        congr 1
        omega
      · rw [if_pos ⟨by omega, by omega⟩, getD_set_eq, if_neg (by omega)]
        congr 1
        omega
    · rw [if_neg h1, if_neg (by omega), getD_set_eq, if_neg (by omega)]

theorem memcpyFwd_take (chain : List Char) (d s n : Nat)
    (hds : d ≤ s) (hlen : s + n ≤ chain.length) :
    (memcpyFwd chain d s n).take (d + n)
      = chain.take d ++ (chain.drop s).take n := by
  have hlenm := length_memcpyFwd n chain d s
  apply List.ext_getElem
  · simp only [List.length_take, List.length_append, List.length_drop, hlenm]
    omega
  · intro i hi1 hi2
    have hiu : i < d + n := by
      simp only [List.length_take, hlenm] at hi1
      omega
    have hgetd :
        (memcpyFwd chain d s n).getD i mallocChar =
          if d ≤ i ∧ i < d + n then chain.getD (s + (i - d)) mallocChar
          else chain.getD i mallocChar := getD_memcpyFwd n chain d s i hds hlen
    have hbridge : ((memcpyFwd chain d s n).take (d + n))[i] =
        (memcpyFwd chain d s n).getD i mallocChar := by
      rw [List.getElem_take, List.getD_eq_getElem?_getD,
        List.getElem?_eq_getElem (by omega)]
      rfl
    rw [hbridge, hgetd]
    by_cases hcase : i < d
    · rw [if_neg (by omega)]
      rw [List.getElem_append_left (by simp; omega)]
      rw [List.getElem_take, List.getD_eq_getElem?_getD,
        List.getElem?_eq_getElem (by omega)]
      rfl
    · rw [if_pos ⟨by omega, hiu⟩]
      rw [List.getElem_append_right (by simp; omega)]
      simp only [List.getElem_take, List.getElem_drop, List.length_take]
      have hmin : min d chain.length = d := by omega
      simp only [hmin]
      rw [List.getD_eq_getElem?_getD, List.getElem?_eq_getElem (by omega)]
      simp only [Option.getD_some]

theorem take_set_of_le : ∀ (l : List Char) (i j : Nat) (a : Char), j ≤ i →
    (l.set i a).take j = l.take j := by
  intro l
  induction l with
  | nil => intro i j a _; rfl
  | cons x xs ih =>
    intro i j a hji
    cases i with
    | zero =>
      have : j = 0 := by omega
      subst this
      rfl
    | succ i =>
      cases j with
      | zero => rfl
      | succ j =>
        simp only [List.set, List.take]
        rw [ih i j a (by omega)]

/-! ## C5: remove excises the inclusive range -/

/-- C5 — confirmed.  For any builder state whose logical length fits its
storage (`used_capacity ≤ length of built_chain < 2^64`) and any valid
range `start_index ≤ stop_index < used_capacity`, `string_builder_remove`
succeeds; the length drops by exactly `stop_index - start_index + 1`; the
capacity, cursor and storage allocation size are untouched; the logical
content is the original content with the inclusive range excised and the
remainder in order; and a following `string_builder_result` hands back
exactly that excised content. -/
theorem c5_remove_excises_range (sb : StringBuilder) (start_index stop_index : Nat)
    (h1 : start_index ≤ stop_index)
    (h2 : stop_index < sb.used_capacity)
    (h3 : sb.used_capacity ≤ sb.built_chain.length)
    (h4 : sb.built_chain.length < W) :
    (string_builder_remove sb start_index stop_index).1 = true ∧
    (string_builder_remove sb start_index stop_index).2.used_capacity
        = sb.used_capacity - (stop_index - start_index + 1) ∧
    (string_builder_remove sb start_index stop_index).2.max_capacity
        = sb.max_capacity ∧
    (string_builder_remove sb start_index stop_index).2.current_sequence_index
        = sb.current_sequence_index ∧
    (string_builder_remove sb start_index stop_index).2.built_chain.length
        = sb.built_chain.length ∧
    (string_builder_remove sb start_index stop_index).2.built_chain.take
        ((string_builder_remove sb start_index stop_index).2.used_capacity)
      = (sb.built_chain.take sb.used_capacity).take start_index
        ++ (sb.built_chain.take sb.used_capacity).drop (stop_index + 1) ∧
    ((string_builder_result
          (string_builder_remove sb start_index stop_index).2 true).1).map
        (fun l => l.take
          (string_builder_remove sb start_index stop_index).2.used_capacity)
      = some ((sb.built_chain.take sb.used_capacity).take start_index
          ++ (sb.built_chain.take sb.used_capacity).drop (stop_index + 1)) := by
  have hWu : sb.used_capacity < W := by omega
  have hrm : string_builder_remove sb start_index stop_index
      = (true,
          { sb with
            built_chain := memcpyFwd sb.built_chain start_index (stop_index + 1)
              (sb.used_capacity - (stop_index + 1))
            used_capacity :=
              sb.used_capacity - (stop_index - start_index + 1) }) := by
    simp only [string_builder_remove]
    rw [if_neg (by omega), if_neg (by omega)]
    rw [Nat.mod_eq_of_lt (show stop_index + 1 < W by omega)]
    rw [subW_eq_sub (show stop_index + 1 ≤ sb.used_capacity by omega) hWu]
    rw [subW_eq_sub h1 (show stop_index < W by omega)]
    rw [Nat.mod_eq_of_lt (show stop_index - start_index + 1 < W by omega)]
    rw [subW_eq_sub
      (show stop_index - start_index + 1 ≤ sb.used_capacity by omega) hWu]
  have hcontent :
      (memcpyFwd sb.built_chain start_index (stop_index + 1)
          (sb.used_capacity - (stop_index + 1))).take
        (sb.used_capacity - (stop_index - start_index + 1))
      = (sb.built_chain.take sb.used_capacity).take start_index
        ++ (sb.built_chain.take sb.used_capacity).drop (stop_index + 1) := by
    rw [List.take_take, Nat.min_eq_left (by omega), List.drop_take]
    have harith : sb.used_capacity - (stop_index - start_index + 1)
        = start_index + (sb.used_capacity - (stop_index + 1)) := by omega
    rw [harith]
    exact memcpyFwd_take sb.built_chain start_index (stop_index + 1)
      (sb.used_capacity - (stop_index + 1)) (by omega) (by omega)
  have hMlen : (memcpyFwd sb.built_chain start_index (stop_index + 1)
      (sb.used_capacity - (stop_index + 1))).length = sb.built_chain.length :=
    length_memcpyFwd ..
  refine ⟨by rw [hrm], by rw [hrm], by rw [hrm], by rw [hrm], ?_, ?_, ?_⟩
  · rw [hrm]
    exact hMlen
  · rw [hrm]
    exact hcontent
  · rw [hrm]
    simp only [string_builder_result]
    split
    · rw [if_pos trivial]
      simp only [Option.map_some']
      congr 1
      rw [Nat.mod_eq_of_lt (by omega : sb.used_capacity -
        (stop_index - start_index + 1) + 1 < W)]
      rw [take_set_of_le _ _ _ _ (le_refl _)]
      unfold reallocList
      rw [show sb.used_capacity - (stop_index - start_index + 1) + 1
            - (memcpyFwd sb.built_chain start_index (stop_index + 1)
                (sb.used_capacity - (stop_index + 1))).length = 0 from by
        rw [hMlen]; omega]
      rw [List.replicate_zero, List.append_nil]
      rw [List.take_take, Nat.min_eq_left (by omega)]
      exact hcontent
    · simp only [Option.map_some']
      congr 1
      rw [take_set_of_le _ _ _ _ (le_refl _)]
      exact hcontent

/-- Witness for `c5_remove_excises_range` at the concrete builder holding
`"ABCD"` with `remove(1, 2)`. -/
theorem c5_remove_excises_range_witness :
    (string_builder_remove
        { built_chain := ['A', 'B', 'C', 'D'], used_capacity := 4,
          max_capacity := 4, current_sequence_index := 5 } 1 2).1 = true ∧
    (string_builder_remove
        { built_chain := ['A', 'B', 'C', 'D'], used_capacity := 4,
          max_capacity := 4, current_sequence_index := 5 } 1 2).2.used_capacity
        = 4 - (2 - 1 + 1) ∧
    (string_builder_remove
        { built_chain := ['A', 'B', 'C', 'D'], used_capacity := 4,
          max_capacity := 4, current_sequence_index := 5 } 1 2).2.max_capacity
        = ({ built_chain := ['A', 'B', 'C', 'D'], used_capacity := 4,
             max_capacity := 4, current_sequence_index := 5 :
             StringBuilder }).max_capacity ∧
    (string_builder_remove
        { built_chain := ['A', 'B', 'C', 'D'], used_capacity := 4,
          max_capacity := 4,
          current_sequence_index := 5 } 1 2).2.current_sequence_index
        = ({ built_chain := ['A', 'B', 'C', 'D'], used_capacity := 4,
             max_capacity := 4, current_sequence_index := 5 :
             StringBuilder }).current_sequence_index ∧
    (string_builder_remove
        { built_chain := ['A', 'B', 'C', 'D'], used_capacity := 4,
          max_capacity := 4,
          current_sequence_index := 5 } 1 2).2.built_chain.length
        = (['A', 'B', 'C', 'D'] : List Char).length ∧
    (string_builder_remove
        { built_chain := ['A', 'B', 'C', 'D'], used_capacity := 4,
          max_capacity := 4, current_sequence_index := 5 } 1 2).2.built_chain.take
        ((string_builder_remove
            { built_chain := ['A', 'B', 'C', 'D'], used_capacity := 4,
              max_capacity := 4,
              current_sequence_index := 5 } 1 2).2.used_capacity)
      = ((['A', 'B', 'C', 'D'] : List Char).take 4).take 1
        ++ ((['A', 'B', 'C', 'D'] : List Char).take 4).drop (2 + 1) ∧
    ((string_builder_result
          (string_builder_remove
            { built_chain := ['A', 'B', 'C', 'D'], used_capacity := 4,
              max_capacity := 4,
              current_sequence_index := 5 } 1 2).2 true).1).map
        (fun l => l.take
          ((string_builder_remove
              { built_chain := ['A', 'B', 'C', 'D'], used_capacity := 4,
                max_capacity := 4,
                current_sequence_index := 5 } 1 2).2.used_capacity))
      = some (((['A', 'B', 'C', 'D'] : List Char).take 4).take 1
          ++ ((['A', 'B', 'C', 'D'] : List Char).take 4).drop (2 + 1)) :=
  c5_remove_excises_range
    { built_chain := ['A', 'B', 'C', 'D'], used_capacity := 4,
      max_capacity := 4, current_sequence_index := 5 } 1 2
    (by decide) (by decide) (by decide) (by decide)

/-! ## The binary search of the constructor -/

theorem seq_table_strictMono :
    ∀ i, i < 51 → ∀ j, j < 51 → i < j →
      SEQUENCE.getD i 0 < SEQUENCE.getD j 0 := by decide

theorem seq_table_bounds :
    ∀ i, i < 51 → SEQUENCE.getD i 0 < W ∧ (1 ≤ i → 1 ≤ SEQUENCE.getD i 0) := by
  decide

/-- Invariant proof for the `while (left <= right)` loop: started on the
interval `[0, 50]` (whose reachable right endpoints with `left = 0` are
`50, 24, 11, 4, 1`), the search returns a final `middle` in `[1, 50]` such
that every table entry strictly beyond it exceeds `capacity`. -/
theorem seq_search_spec (cap : Nat) : ∀ (gas : Nat) (l r m : Int),
    (r + 1 - l).toNat ≤ gas →
    0 ≤ l → r ≤ 50 →
    (l = 0 → r = 1 ∨ r = 4 ∨ r = 11 ∨ r = 24 ∨ r = 50) →
    (∀ j : Nat, r < (j : Int) → j < 51 → cap < SEQUENCE.getD j 0) →
    (r < l → 1 ≤ m ∧ m ≤ 50 ∧
      (∀ j : Nat, m < (j : Int) → j < 51 → cap < SEQUENCE.getD j 0)) →
    1 ≤ string_builder_sequence_search cap gas l r m ∧
    string_builder_sequence_search cap gas l r m ≤ 50 ∧
    (∀ j : Nat, string_builder_sequence_search cap gas l r m < (j : Int) →
      j < 51 → cap < SEQUENCE.getD j 0) := by
  intro gas
  induction gas with
  | zero =>
    intro l r m hgas hl0 hr50 hlset hentries hexit
    exact hexit (by omega)
  | succ gas ih =>
    intro l r m hgas hl0 hr50 hlset hentries hexit
    rw [string_builder_sequence_search]
    split
    · rename_i hlr
      have hdnn : 0 ≤ (r - l) / 2 := Int.ediv_nonneg (by omega) (by norm_num)
      have hdle : (r - l) / 2 ≤ r - l := Int.ediv_le_self 2 (by omega)
      dsimp only
      split
      · rename_i hseq
        refine ih (l + (r - l) / 2 + 1) r (l + (r - l) / 2)
          (by omega) (by omega) hr50 (fun h => absurd h (by omega)) hentries ?_
        intro hx
        have hmr : l + (r - l) / 2 = r := by omega
        refine ⟨?_, by omega, fun j hj hj51 => hentries j (by omega) hj51⟩
        by_cases hl00 : l = 0
        · rcases hlset hl00 with rfl | rfl | rfl | rfl | rfl <;> omega
        · omega
      · rename_i hseq
        have hcapm : cap < SEQUENCE.getD (l + (r - l) / 2).toNat 0 :=
          Nat.lt_of_not_le hseq
        have hm1 : 1 ≤ l + (r - l) / 2 := by
          by_contra hc
          have hz : l + (r - l) / 2 = 0 := by omega
          rw [hz] at hseq
          exact hseq (le_trans (le_of_eq (by decide)) (Nat.zero_le cap))
        have hafter : ∀ j : Nat, (l + (r - l) / 2 - 1 : Int) < (j : Int) →
            j < 51 → cap < SEQUENCE.getD j 0 := by
          intro j hj hj51
          rcases Nat.eq_or_lt_of_le (show (l + (r - l) / 2).toNat ≤ j by omega)
            with heq | hlt
          · exact heq ▸ hcapm
          · exact lt_trans hcapm
              (seq_table_strictMono (l + (r - l) / 2).toNat (by omega) j hj51 hlt)
        refine ih l (l + (r - l) / 2 - 1) (l + (r - l) / 2)
          (by omega) hl0 (by omega) ?_ hafter
          (fun _ => ⟨hm1, by omega, fun j hj hj51 => hafter j (by omega) hj51⟩)
        intro hl00
        subst hl00
        rcases hlset rfl with rfl | rfl | rfl | rfl | rfl
        · have : ((0:Int) + (1 - 0) / 2) = 0 := by decide
          omega
        · have : ((0:Int) + (4 - 0) / 2) = 2 := by decide
          omega
        · have : ((0:Int) + (11 - 0) / 2) = 5 := by decide
          omega
        · have : ((0:Int) + (24 - 0) / 2) = 12 := by decide
          omega
        · have : ((0:Int) + (50 - 0) / 2) = 25 := by decide
          omega
    · rename_i hlr
      exact hexit (by omega)

/-- The constructor's cursor: for every `initial_capacity` it lies in
`[1, 50]` and every table entry strictly beyond it exceeds
`initial_capacity`. -/
theorem create_cursor_spec (cap : Nat) :
    1 ≤ (string_builder_create cap).current_sequence_index ∧
    (string_builder_create cap).current_sequence_index ≤ 50 ∧
    ∀ j : Nat, (string_builder_create cap).current_sequence_index < j →
      j < 51 → cap < SEQUENCE.getD j 0 := by
  have hc : (string_builder_create cap).current_sequence_index
      = (string_builder_compute_next_best_sequence_value_index cap).toNat := rfl
  rw [hc]
  unfold string_builder_compute_next_best_sequence_value_index
  split
  · rename_i hdef
    subst hdef
    refine ⟨by decide, by decide, ?_⟩
    have hdec : ∀ j : Nat, j < 51 →
        ((SEQUENCE_INIT_NEXT_INDEX : Int).toNat < j →
          DEFAULT_INITIAL_CAPACITY < SEQUENCE.getD j 0) := by decide
    intro j hj hj51
    exact hdec j hj51 hj
  · have hs := seq_search_spec cap SEQUENCE_SIZE 0 ((SEQUENCE_SIZE : Int) - 1) 0
      (by decide) (by decide) (by decide)
      (by intro h; decide)
      (by intro j hj hj51
          rw [show SEQUENCE_SIZE = 51 from rfl] at hj
          omega)
      (by intro h; exact absurd h (by decide))
    refine ⟨by omega, by omega, ?_⟩
    intro j hj hj51
    exact hs.2.2 j (by omega) hj51

/-! ## The growth computation -/

theorem advance_cursor_ge : ∀ (gas idx need : Nat),
    idx ≤ string_builder_advance_cursor gas idx need := by
  intro gas
  induction gas with
  | zero => intro idx need; exact le_refl idx
  | succ gas ih =>
    intro idx need
    rw [string_builder_advance_cursor]
    split
    · exact le_trans (Nat.le_succ idx) (ih (idx + 1) need)
    · exact le_refl idx

theorem advance_cursor_exit : ∀ (gas idx need : Nat),
    SEQUENCE_SIZE ≤ idx + gas →
    ¬(string_builder_advance_cursor gas idx need < SEQUENCE_SIZE ∧
      subW (SEQUENCE.getD (string_builder_advance_cursor gas idx need) 0) 1
        < need) := by
  intro gas
  induction gas with
  | zero =>
    intro idx need hgas
    rw [string_builder_advance_cursor]
    omega
  | succ gas ih =>
    intro idx need hgas
    rw [string_builder_advance_cursor]
    split
    · exact ih (idx + 1) need (by omega)
    · rename_i hcond
      exact hcond

theorem growth_step_bounds (v : Nat) :
    1 ≤ string_builder_growth_step v ∧ string_builder_growth_step v < W := by
  unfold string_builder_growth_step
  have h1 : (v % W + v * 2 % W) % W < W := Nat.mod_lt _ W_pos
  have h2 : (v % W + v * 2 % W) % W / 2 + 1 < W := by
    have hW2 : 2 ≤ W := by decide
    omega
  rw [Nat.mod_eq_of_lt h2]
  omega

theorem fallback_loop_spec : ∀ (fuel need v r : Nat), 1 ≤ v → v < W →
    string_builder_fallback_loop fuel need v = some r →
    1 ≤ r ∧ r < W ∧ ¬(subW r 1 < need) := by
  intro fuel
  induction fuel with
  | zero =>
    intro need v r _ _ h
    simp [string_builder_fallback_loop] at h
  | succ fuel ih =>
    intro need v r hv1 hvW h
    rw [string_builder_fallback_loop] at h
    split at h
    · exact ih need (string_builder_growth_step v) r
        (growth_step_bounds v).1 (growth_step_bounds v).2 h
    · rename_i hcond
      obtain rfl := Option.some.inj h
      exact ⟨hv1, hvW, hcond⟩

/-- What is known about a successful `string_builder_compute_new_size` run:
the returned cursor never moved backwards, and the returned size came
either from the cached table (cursor = its index + 1, with the table entry
satisfying the loop exit condition) or from the fallback recurrence
(cursor at or past the table's end, size positive, below `2^64`, and
satisfying the loop exit condition). -/
theorem compute_new_size_spec (sb : StringBuilder) (n new_size idx : Nat)
    (h : string_builder_compute_new_size sb n = some (new_size, idx)) :
    sb.current_sequence_index ≤ idx ∧
    ((idx - 1 < SEQUENCE_SIZE ∧ idx = (idx - 1) + 1 ∧
        sb.current_sequence_index ≤ idx - 1 ∧
        new_size = SEQUENCE.getD (idx - 1) 0 ∧
        ¬(subW (SEQUENCE.getD (idx - 1) 0) 1 < (sb.used_capacity + n) % W)) ∨
      (SEQUENCE_SIZE ≤ idx ∧ 1 ≤ new_size ∧ new_size < W ∧
        ¬(subW new_size 1 < (sb.used_capacity + n) % W))) := by
  unfold string_builder_compute_new_size at h
  dsimp only at h
  have hge := advance_cursor_ge SEQUENCE_SIZE sb.current_sequence_index
    ((sb.used_capacity + n) % W)
  have hexit := advance_cursor_exit SEQUENCE_SIZE sb.current_sequence_index
    ((sb.used_capacity + n) % W) (by omega)
  split at h
  · rename_i hlt
    obtain ⟨h1eq, h2eq⟩ := Prod.mk.injEq .. |>.mp (Option.some.inj h)
    subst h2eq
    subst h1eq
    refine ⟨by omega, Or.inl ⟨by omega, by omega, by omega, by simp, ?_⟩⟩
    simp only [Nat.add_sub_cancel]
    intro hc
    exact hexit ⟨hlt, hc⟩
  · rename_i hnlt
    split at h
    · rename_i v hfb
      have hfs := fallback_loop_spec fallbackFuel ((sb.used_capacity + n) % W)
        (SEQUENCE.getD (SEQUENCE_SIZE - 1) 0) v (by decide) (by decide) hfb
      obtain ⟨h1eq, h2eq⟩ := Prod.mk.injEq .. |>.mp (Option.some.inj h)
      subst h2eq
      subst h1eq
      exact ⟨by omega, Or.inr ⟨by omega, hfs.1, hfs.2.1, hfs.2.2⟩⟩
    · exact absurd h (by simp)

/-! ## Capacity growth invariants of ensure_capacity -/

/-- Monotonicity of a single `string_builder_ensure_capacity` call: from a
state whose cursor is at least `1` and whose capacity is a `size_t` value,
any completed call (successful or not) never decreases `max_capacity`,
keeps the cursor at least `1`, and keeps the capacity a `size_t` value. -/
theorem ensure_capacity_mono (sb : StringBuilder) (n : Nat) (ok b : Bool)
    (sb' : StringBuilder) (h1 : 1 ≤ sb.current_sequence_index)
    (h2 : sb.max_capacity < W)
    (h : string_builder_ensure_capacity sb n ok = some (b, sb')) :
    sb.max_capacity ≤ sb'.max_capacity ∧ 1 ≤ sb'.current_sequence_index ∧
    sb'.max_capacity < W := by
  unfold string_builder_ensure_capacity at h
  split at h
  · simp only [Option.some.injEq, Prod.mk.injEq] at h
    obtain ⟨-, rfl⟩ := h
    exact ⟨le_refl _, h1, h2⟩
  · split at h
    · simp only [Option.some.injEq, Prod.mk.injEq] at h
      obtain ⟨-, rfl⟩ := h
      exact ⟨le_refl _, h1, h2⟩
    · rename_i hgrow
      rcases hcs : string_builder_compute_new_size sb n with - | ⟨new_size, idx⟩
      · rw [hcs] at h
        simp at h
      · rw [hcs] at h
        dsimp only at h
        obtain ⟨hcur_le, hspec⟩ := compute_new_size_spec sb n new_size idx hcs
        have hneedW : (sb.used_capacity + n) % W < W := Nat.mod_lt _ W_pos
        have hmax1 : 1 ≤ sb.max_capacity := by
          by_contra hc
          have h0 : sb.max_capacity = 0 := by omega
          rw [h0] at hgrow
          rw [show subW 0 1 = W - 1 from by decide] at hgrow
          omega
        rw [subW_eq_sub hmax1 h2] at hgrow
        have hneed : sb.max_capacity ≤ (sb.used_capacity + n) % W := by omega
        have hsz : sb.max_capacity ≤ new_size ∧ new_size < W := by
          rcases hspec with ⟨hi1, hi2, hi3, hi4, hi5⟩ | ⟨hi1, hi2, hi3, hi4⟩
          · obtain ⟨hbW, hb1⟩ := seq_table_bounds (idx - 1) hi1
            have hpos : 1 ≤ SEQUENCE.getD (idx - 1) 0 := hb1 (by omega)
            rw [subW_eq_sub hpos hbW] at hi5
            constructor
            · rw [hi4]
              omega
            · rw [hi4]
              exact hbW
          · rw [subW_eq_sub hi2 hi3] at hi4
            exact ⟨by omega, hi3⟩
        split at h
        · simp only [Option.some.injEq, Prod.mk.injEq] at h
          obtain ⟨-, rfl⟩ := h
          exact ⟨hsz.1, (by omega : 1 ≤ idx), hsz.2⟩
        · simp only [Option.some.injEq, Prod.mk.injEq] at h
          obtain ⟨-, rfl⟩ := h
          exact ⟨le_refl _, (by omega : 1 ≤ idx), h2⟩

/-- The cursor-table invariant: every cached entry strictly beyond the
cursor is strictly larger than the current capacity (vacuously true once
the cursor is past the table's end). -/
def CursorInv (sb : StringBuilder) : Prop :=
  ∀ j, sb.current_sequence_index < j → j < SEQUENCE_SIZE →
    sb.max_capacity < SEQUENCE.getD j 0

/-- A completed `string_builder_ensure_capacity` call preserves
`CursorInv`, whether it succeeds, refuses the request, or fails to
reallocate. -/
theorem ensure_capacity_cursorInv (sb : StringBuilder) (n : Nat) (ok b : Bool)
    (sb' : StringBuilder) (hInv : CursorInv sb)
    (h : string_builder_ensure_capacity sb n ok = some (b, sb')) :
    CursorInv sb' := by
  unfold string_builder_ensure_capacity at h
  split at h
  · simp only [Option.some.injEq, Prod.mk.injEq] at h
    obtain ⟨-, rfl⟩ := h
    exact hInv
  · split at h
    · simp only [Option.some.injEq, Prod.mk.injEq] at h
      obtain ⟨-, rfl⟩ := h
      exact hInv
    · rcases hcs : string_builder_compute_new_size sb n with - | ⟨new_size, idx⟩
      · rw [hcs] at h
        simp at h
      · rw [hcs] at h
        dsimp only at h
        obtain ⟨hcur_le, hspec⟩ := compute_new_size_spec sb n new_size idx hcs
        split at h
        · simp only [Option.some.injEq, Prod.mk.injEq] at h
          obtain ⟨-, rfl⟩ := h
          intro j hj hj51
          have hj' : idx < j := hj
          rcases hspec with ⟨hi1, hi2, hi3, hi4, hi5⟩ | ⟨hi1, hi2, hi3, hi4⟩
          · show new_size < SEQUENCE.getD j 0
            rw [hi4]
            exact seq_table_strictMono (idx - 1) hi1 j hj51 (by omega)
          · exact absurd hj51 (by omega)
        · simp only [Option.some.injEq, Prod.mk.injEq] at h
          obtain ⟨-, rfl⟩ := h
          intro j hj hj51
          have hj' : idx < j := hj
          exact hInv j (by omega) hj51

/-! ## Public operations as a step relation -/

/-- An append call: `string_builder_append_one` or
`string_builder_append_all`, with its allocation outcome. -/
inductive AppendOp where
  | one : Char → Bool → AppendOp
  | all : List Char → Bool → AppendOp
  deriving DecidableEq, Repr

/-- Run one append call on a builder, returning its status and the
resulting state. -/
def string_builder_apply_append (sb : StringBuilder) :
    AppendOp → Option (Bool × StringBuilder)
  | .one c ok => string_builder_append_one sb c ok
  | .all l ok => string_builder_append_all sb l ok

/-- One public mutating/finalizing call, with its allocation outcome where
one is needed. -/
inductive BuilderOp where
  | appendOne : Char → Bool → BuilderOp
  | appendAll : List Char → Bool → BuilderOp
  | removeRange : Nat → Nat → BuilderOp
  | clearAll : Bool → BuilderOp
  | takeResult : Bool → BuilderOp
  deriving DecidableEq, Repr

/-- The builder state after one public call (whatever the call's status). -/
def string_builder_step (sb : StringBuilder) : BuilderOp → Option StringBuilder
  | .appendOne c ok => (string_builder_append_one sb c ok).map Prod.snd
  | .appendAll l ok => (string_builder_append_all sb l ok).map Prod.snd
  | .removeRange s e => some (string_builder_remove sb s e).2
  | .clearAll ok => some (string_builder_clear sb ok).2
  | .takeResult ok => some (string_builder_result sb ok).2

/-! ## C9: capacity is monotone under appends -/

/-- C9 — confirmed.  Every builder coming out of the constructor has a
cursor of at least `1` and (for a `size_t` capacity request) a capacity
below `2^64`; and from any state satisfying those two invariants, every
completed `string_builder_append_one` / `string_builder_append_all` call —
successful or failed — leaves the capacity at least as large as before and
re-establishes both invariants, so along any sequence of append calls the
capacity never decreases. -/
theorem c9_capacity_monotone_under_appends :
    (∀ cap, 1 ≤ (string_builder_create cap).current_sequence_index ∧
      (cap < W → (string_builder_create cap).max_capacity < W)) ∧
    (∀ sb op b sb', 1 ≤ sb.current_sequence_index → sb.max_capacity < W →
      string_builder_apply_append sb op = some (b, sb') →
      sb.max_capacity ≤ sb'.max_capacity ∧ 1 ≤ sb'.current_sequence_index ∧
      sb'.max_capacity < W) := by
  constructor
  · intro cap
    exact ⟨(create_cursor_spec cap).1, fun h => h⟩
  · intro sb op b sb' h1 h2 h
    cases op with
    | one c ok =>
      simp only [string_builder_apply_append, string_builder_append_one] at h
      rcases he : string_builder_ensure_capacity sb 1 ok with - | ⟨be, sbe⟩
      · rw [he] at h
        simp at h
      · rw [he] at h
        have hm := ensure_capacity_mono sb 1 ok be sbe h1 h2 he
        cases be with
        | false =>
          simp only [Option.some.injEq, Prod.mk.injEq] at h
          obtain ⟨-, rfl⟩ := h
          exact hm
        | true =>
          simp only [Option.some.injEq, Prod.mk.injEq] at h
          obtain ⟨-, rfl⟩ := h
          exact hm
    | all l ok =>
      simp only [string_builder_apply_append, string_builder_append_all] at h
      rcases he : string_builder_ensure_capacity sb l.length ok with - | ⟨be, sbe⟩
      · rw [he] at h
        simp at h
      · rw [he] at h
        have hm := ensure_capacity_mono sb l.length ok be sbe h1 h2 he
        cases be with
        | false =>
          simp only [Option.some.injEq, Prod.mk.injEq] at h
          obtain ⟨-, rfl⟩ := h
          exact hm
        | true =>
          simp only [Option.some.injEq, Prod.mk.injEq] at h
          obtain ⟨-, rfl⟩ := h
          exact hm

/-- Witness for `c9_capacity_monotone_under_appends`: appending `'A'` to
`string_builder_create 1` grows the capacity from `1` to `2` (cursor from
`1` to `3`), and the invariants survive. -/
theorem c9_capacity_monotone_under_appends_witness :
    (string_builder_create 1).max_capacity ≤
      ({ built_chain := ['A', mallocChar], used_capacity := 1,
         max_capacity := 2, current_sequence_index := 3 :
         StringBuilder }).max_capacity ∧
    1 ≤ ({ built_chain := ['A', mallocChar], used_capacity := 1,
           max_capacity := 2, current_sequence_index := 3 :
           StringBuilder }).current_sequence_index ∧
    ({ built_chain := ['A', mallocChar], used_capacity := 1,
       max_capacity := 2, current_sequence_index := 3 :
       StringBuilder }).max_capacity < W :=
  c9_capacity_monotone_under_appends.2 (string_builder_create 1)
    (AppendOp.one 'A' true) true
    { built_chain := ['A', mallocChar], used_capacity := 1,
      max_capacity := 2, current_sequence_index := 3 }
    (by decide) (by decide) (by decide)

/-! ## C7: what the constructor's cursor actually satisfies -/

/-- C7 — counterexample to the claim as stated.  `string_builder_create(8)`
sets the cursor to table index `4`, whose entry is `7 < 8`: the cursor is
inside the table but references an entry smaller than the capacity, and it
is not the index of the smallest cached value `≥ 8` (that index is `5`,
entry `11`). -/
theorem c7_create8_cursor_below_capacity :
    (string_builder_create 8).max_capacity = 8 ∧
    (string_builder_create 8).current_sequence_index = 4 ∧
    (string_builder_create 8).current_sequence_index < SEQUENCE_SIZE ∧
    SEQUENCE.getD (string_builder_create 8).current_sequence_index 0 = 7 ∧
    ¬(8 ≤ SEQUENCE.getD (string_builder_create 8).current_sequence_index 0) ∧
    SEQUENCE.getD 4 0 < 8 ∧ 8 ≤ SEQUENCE.getD 5 0 ∧
    (string_builder_create 8).current_sequence_index ≠ 5 := by
  refine ⟨by decide, by decide, by decide, by decide, by decide, by decide,
    by decide, by decide⟩

/-- C7 — amended.  The constructor places the cursor at the binary search's
final probe, after which every remaining table entry strictly exceeds
`initial_capacity` — but the entry at the cursor itself may be smaller than
the capacity (see `string_builder_create 8`).  Every public operation
preserves this invariant (`CursorInv`): all table entries strictly beyond
the cursor exceed the current capacity, vacuously once the cursor is past
the table's end. -/
theorem c7_cursor_invariant_amended :
    (∀ cap, CursorInv (string_builder_create cap)) ∧
    (∀ sb op sb', CursorInv sb → string_builder_step sb op = some sb' →
      CursorInv sb') := by
  constructor
  · intro cap j hj hj51
    exact (create_cursor_spec cap).2.2 j hj hj51
  · intro sb op sb' hInv h
    cases op with
    | appendOne c ok =>
      simp only [string_builder_step, string_builder_append_one] at h
      rcases he : string_builder_ensure_capacity sb 1 ok with - | ⟨be, sbe⟩
      · rw [he] at h
        simp at h
      · rw [he] at h
        have hie := ensure_capacity_cursorInv sb 1 ok be sbe hInv he
        cases be with
        | false =>
          dsimp only at h
          obtain rfl := Option.some.inj h
          exact hie
        | true =>
          dsimp only at h
          obtain rfl := Option.some.inj h
          exact hie
    | appendAll l ok =>
      simp only [string_builder_step, string_builder_append_all] at h
      rcases he : string_builder_ensure_capacity sb l.length ok with - | ⟨be, sbe⟩
      · rw [he] at h
        simp at h
      · rw [he] at h
        have hie := ensure_capacity_cursorInv sb l.length ok be sbe hInv he
        cases be with
        | false =>
          dsimp only at h
          obtain rfl := Option.some.inj h
          exact hie
        | true =>
          dsimp only at h
          obtain rfl := Option.some.inj h
          exact hie
    | removeRange s e =>
      simp only [string_builder_step] at h
      obtain rfl := Option.some.inj h
      unfold string_builder_remove
      split
      · exact hInv
      · split
        · exact hInv
        · exact hInv
    | clearAll ok =>
      simp only [string_builder_step] at h
      obtain rfl := Option.some.inj h
      unfold string_builder_clear
      split
      · intro j hj hj51
        have hj' : (2 : Nat) < j := hj
        have hcl : ∀ j, j < 51 → 2 < j → 1 < SEQUENCE.getD j 0 := by decide
        exact hcl j hj51 hj'
      · exact hInv
    | takeResult ok =>
      simp only [string_builder_step] at h
      obtain rfl := Option.some.inj h
      unfold string_builder_result
      split
      · split
        · exact hInv
        · exact hInv
      · exact hInv

/-- Witness for `c7_cursor_invariant_amended`: the invariant instantiated
after creation (`cap = 16`, entry `8`) and after one preserved step
(`remove` on the fresh `string_builder_create 1`, entry `3`). -/
theorem c7_cursor_invariant_amended_witness :
    1 < SEQUENCE.getD 3 0 ∧ 16 < SEQUENCE.getD 8 0 :=
  ⟨c7_cursor_invariant_amended.2 (string_builder_create 1)
      (BuilderOp.removeRange 0 0) (string_builder_create 1)
      (c7_cursor_invariant_amended.1 1) (by decide) 3 (by decide) (by decide),
   c7_cursor_invariant_amended.1 16 8 (by decide) (by decide)⟩

/-! ## C6: the cached table versus the recurrence -/

/-- The growth recurrence exactly as the specification words it:
`new = floor(old * 3 / 2) + 1`, in plain (non-wrapping) arithmetic.  This
is the comparison definition for the refinement claim; the code's own step
is `string_builder_growth_step`. -/
def specGrowthStep (v : Nat) : Nat := v * 3 / 2 + 1

/-- The fallback loop as the specification words it: starting value is
applied to the recurrence `specGrowthStep` repeatedly until one slot below
it covers the request (same iteration budget discipline as the code's
loop). -/
def spec_fallback_loop : Nat → Nat → Nat → Option Nat
  | 0, _, _ => none
  | Nat.succ fuel, need, v =>
    if v - 1 < need then spec_fallback_loop fuel need (specGrowthStep v)
    else some v

/-- The code's fallback step agrees with the spec recurrence whenever the
shift arithmetic cannot wrap. -/
theorem growth_step_eq_spec (v : Nat) (h : 3 * v < W) :
    string_builder_growth_step v = specGrowthStep v := by
  unfold string_builder_growth_step specGrowthStep
  rw [Nat.mod_eq_of_lt (show v < W by omega),
    Nat.mod_eq_of_lt (show v * 2 < W by omega),
    Nat.mod_eq_of_lt (show v + v * 2 < W by omega),
    Nat.mod_eq_of_lt (show (v + v * 2) / 2 + 1 < W by
      have h3 : (3 : Nat) ≤ W := by decide
      omega)]
  omega

/-- C6 — confirmed.  (i) Every pair of consecutive entries of the cached
table satisfies `next = floor(prev * 3 / 2) + 1`; (ii) the code's fallback
step (shift arithmetic modulo `2^64`) is exactly that recurrence whenever
`3 * v` does not wrap; (iii) the entire fallback loop coincides with
iterating the spec recurrence until the capacity suffices, for every
request below `2^62` and every positive starting value below `2^64` — in
particular for its actual start `SEQUENCE[50]`. -/
theorem c6_table_and_fallback_match_recurrence :
    (∀ i, i < SEQUENCE_SIZE - 1 →
      SEQUENCE.getD (i + 1) 0 = specGrowthStep (SEQUENCE.getD i 0)) ∧
    (∀ v, 3 * v < W → string_builder_growth_step v = specGrowthStep v) ∧
    (∀ fuel need v, need < 2 ^ 62 → v < W → 1 ≤ v →
      string_builder_fallback_loop fuel need v
        = spec_fallback_loop fuel need v) := by
  refine ⟨by decide, fun v h => growth_step_eq_spec v h, ?_⟩
  intro fuel
  induction fuel with
  | zero =>
    intro need v _ _ _
    rfl
  | succ fuel ih =>
    intro need v hneed hvW hv1
    rw [string_builder_fallback_loop, spec_fallback_loop,
      subW_eq_sub hv1 hvW]
    split
    · rename_i hc
      have h3v : 3 * v < W := by
        have hb : 3 * 2 ^ 62 ≤ W := by decide
        omega
      rw [growth_step_eq_spec v h3v]
      exact ih need (specGrowthStep v) hneed
        (by unfold specGrowthStep; omega) (by unfold specGrowthStep; omega)
    · rfl

/-- Witness for `c6_table_and_fallback_match_recurrence`: the table pair
`11 → 17`, the step at `1000`, and the two-iteration fallback run for a
request of `2 * 10^9` starting at `SEQUENCE[50]`. -/
theorem c6_table_and_fallback_match_recurrence_witness :
    SEQUENCE.getD 6 0 = specGrowthStep (SEQUENCE.getD 5 0) ∧
    string_builder_growth_step 1000 = specGrowthStep 1000 ∧
    string_builder_fallback_loop fallbackFuel (2 * 10 ^ 9)
        (SEQUENCE.getD 50 0)
      = spec_fallback_loop fallbackFuel (2 * 10 ^ 9) (SEQUENCE.getD 50 0) :=
  ⟨c6_table_and_fallback_match_recurrence.1 5 (by decide),
   c6_table_and_fallback_match_recurrence.2.1 1000 (by decide),
   c6_table_and_fallback_match_recurrence.2.2 fallbackFuel (2 * 10 ^ 9)
     (SEQUENCE.getD 50 0) (by decide) (by decide) (by decide)⟩
